import Mathlib

/-!
Shallow embedding of the filler_mk2 core: the board (`Plateau`) with its
placement validator and commit/aging operations, translated from
`src/models/plateau/mod.rs`, and the match engine's turn loop, translated
from `src/engine/engine.rs`.

Machine integers are modelled as unbounded `Int`/`Nat` (the widths and
coordinates in all claims are far below any overflow boundary).  A Rust
`panic!` (out-of-range vector indexing, or the explicit panic branch in
`Plateau::get`) is modelled by `Option`: `none` means the operation
panics.  Rust `Result<T, String>` is modelled by `Except String T`.
-/

namespace Filler

/-- Modelled from the spec: the `Player` enumeration {Player1, Player2}
(its source module `models/player` is not part of the provided sources). -/
inductive Player where
  | Player1
  | Player2
deriving DecidableEq, Repr

/-- The opponent of a player in the fixed two-player rotation. -/
def Player.other : Player → Player
  | .Player1 => .Player2
  | .Player2 => .Player1

/-- Modelled from the spec: `Point` is a pair of signed integers (x, y)
(its source module `models/point` is not part of the provided sources). -/
structure Point where
  x : Int
  y : Int
deriving DecidableEq, Repr

/-- Modelled from the spec: point + point is componentwise addition, used to
translate piece-local coordinates into board-absolute coordinates. -/
def Point.add (a b : Point) : Point := ⟨a.x + b.x, a.y + b.y⟩

instance : Add Point := ⟨Point.add⟩

/-- Modelled from the spec: a `Piece` is a width, a height and a row-major
boolean mask of width×height sub-cells (its source module `models/piece` is
not part of the provided sources). -/
structure Piece where
  width : Nat
  height : Nat
  cells : List Bool
deriving DecidableEq, Repr

/-- Modelled from the spec: `Piece::get` reads the row-major mask at a
piece-local coordinate.  The validator only queries coordinates with
0 ≤ x < width and 0 ≤ y < height, where this is `cells[y*width + x]`. -/
def Piece.get (piece : Piece) (p : Point) : Bool :=
  piece.cells.getD (p.y.toNat * piece.width + p.x.toNat) false

/-- The piece-local coordinates in the scan order of the Rust loops:
`y` over `0..height` outer, `x` over `0..width` inner. -/
def Piece.coords (piece : Piece) : List Point :=
  (List.range piece.height).flatMap fun y =>
    (List.range piece.width).map fun x => ⟨(x : Int), (y : Int)⟩

/-- The `Cell` enum of `models/plateau/mod.rs`: `Player1(bool)`,
`Player2(bool)`, `Empty`; the `bool` payload is the is-new flag. -/
inductive Cell where
  | Player1 (isNew : Bool)
  | Player2 (isNew : Bool)
  | Empty
deriving DecidableEq, Repr

/-- `Cell::age` from `models/plateau/mod.rs`: clear the is-new flag. -/
def Cell.age : Cell → Cell
  | .Player1 _ => .Player1 false
  | .Player2 _ => .Player2 false
  | .Empty => .Empty

/-- Which player owns a cell (a specification-side view of the variant). -/
def Cell.owner : Cell → Option Player
  | .Player1 _ => some .Player1
  | .Player2 _ => some .Player2
  | .Empty => none

/-- Fuel-indexed model of `impl PartialEq for Cell` from
`models/plateau/mod.rs`.  The `Player1`/`Player2` arms are flat variant
comparisons; the wildcard arm for `Empty` is `self == other`, which
re-invokes the very same `eq` on unchanged arguments, so it consumes one
unit of fuel and recurses; `none` models non-termination (stack overflow). -/
def cellEqFuel : Nat → Cell → Cell → Option Bool
  | _, .Player1 _, .Player1 _ => some true
  | _, .Player1 _, _ => some false
  | _, .Player2 _, .Player2 _ => some true
  | _, .Player2 _, _ => some false
  | 0, .Empty, _ => none
  | n + 1, .Empty, other => cellEqFuel n .Empty other

/-- The owner cell built by `Plateau::place_piece` for the placing
player: `Player1(true)` or `Player2(true)`. -/
def Player.cell : Player → Cell
  | .Player1 => .Player1 true
  | .Player2 => .Player2 true

/-- The `Plateau` struct of `models/plateau/mod.rs`. -/
structure Plateau where
  player1_start : Point
  player2_start : Point
  width : Nat
  height : Nat
  cells : List Cell
  last_piece : Option (Point × Piece)
deriving DecidableEq, Repr

/-- `Plateau::is_in_bounds`. -/
def Plateau.is_in_bounds (plat : Plateau) (p : Point) : Bool :=
  0 ≤ p.x && p.x < (plat.width : Int) && 0 ≤ p.y && p.y < (plat.height : Int)

/-- The flat index `width * y + x` used by `Plateau::get` and
`Plateau::set`. -/
def Plateau.idx (plat : Plateau) (p : Point) : Int :=
  (plat.width : Int) * p.y + p.x

/-- `Plateau::get`.  `none` models the `panic!("Cells incorrectly
initialized")` branch: a negative index (cast in Rust to a huge `usize`)
or an index past the end of `cells` makes `Vec::get` return `None`. -/
def Plateau.get (plat : Plateau) (p : Point) : Option Cell :=
  if 0 ≤ plat.idx p then plat.cells.get? (plat.idx p).toNat else none

/-- `Plateau::set`.  `none` models the panic of out-of-range slice
assignment `self.cells[...] = cell`. -/
def Plateau.set (plat : Plateau) (p : Point) (c : Cell) : Option Plateau :=
  if 0 ≤ plat.idx p ∧ (plat.idx p).toNat < plat.cells.length then
    some { plat with cells := plat.cells.set (plat.idx p).toNat c }
  else none

/-- The specification-side read of a board cell: the stored cell, with
`Empty` as the (never used under the board invariant) panic default. -/
def Plateau.cellAt (plat : Plateau) (p : Point) : Cell :=
  (plat.get p).getD .Empty

/-- `Plateau::new`.  Builds the all-`Empty` cell vector, then bound-checks
and stamps each player's start in order (Player1 first). -/
def Plateau.new (width height : Nat) (player1 player2 : Point) :
    Option (Except String Plateau) :=
  let plateau : Plateau :=
    { player1_start := player1, player2_start := player2
      width := width, height := height
      cells := List.replicate (width * height) Cell.Empty
      last_piece := none }
  if plateau.is_in_bounds player1 then
    match plateau.set player1 (Cell.Player1 false) with
    | none => none
    | some plat1 =>
      if plat1.is_in_bounds player2 then
        match plat1.set player2 (Cell.Player2 false) with
        | none => none
        | some plat2 => some (.ok plat2)
      else some (.error "Player2 out of bounds")
  else some (.error "Player1 out of bounds")

/-- The scan loop of `Plateau::is_valid_placement` over the remaining
piece-local coordinates, carrying the `overlap` flag.  Unset sub-cells are
skipped; a set sub-cell is bound-checked, read, and dispatched on its
variant exactly as the Rust `match` does (the `plat_cell == *owner` guard
is only ever evaluated with an owned `plat_cell`, where `Cell::eq` is the
flat variant comparison inlined here). -/
def Plateau.validScan (plat : Plateau) (piece : Piece) (placement : Point)
    (owner : Cell) : List Point → Bool → Option (Except String Unit)
  | [], overlap =>
    if overlap then some (.ok ()) else some (.error "No Overlap")
  | q :: rest, overlap =>
    if piece.get q then
      let offset := q + placement
      if plat.is_in_bounds offset then
        match plat.get offset with
        | none => none
        | some .Empty => plat.validScan piece placement owner rest overlap
        | some (.Player1 _) =>
          match owner with
          | .Player1 _ =>
            if overlap then some (.error "Overlap greater than one")
            else plat.validScan piece placement owner rest true
          | _ => some (.error "Overlap on other player")
        | some (.Player2 _) =>
          match owner with
          | .Player2 _ =>
            if overlap then some (.error "Overlap greater than one")
            else plat.validScan piece placement owner rest true
          | _ => some (.error "Overlap on other player")
      else some (.error "Piece out of bounds")
    else plat.validScan piece placement owner rest overlap

/-- `Plateau::is_valid_placement`. -/
def Plateau.is_valid_placement (plat : Plateau) (piece : Piece)
    (placement : Point) (owner : Cell) : Option (Except String Unit) :=
  plat.validScan piece placement owner piece.coords false

/-- The stamping loop of `Plateau::place_piece`: set every set sub-cell's
absolute cell to the owner cell (an unchecked indexed write). -/
def Plateau.stampLoop (owner : Cell) (piece : Piece) (placement : Point) :
    List Point → Plateau → Option Plateau
  | [], plat => some plat
  | q :: rest, plat =>
    if piece.get q then
      match plat.set (q + placement) owner with
      | none => none
      | some plat2 => Plateau.stampLoop owner piece placement rest plat2
    else Plateau.stampLoop owner piece placement rest plat

/-- The aging loop of `Plateau::age_placement`: read each set sub-cell's
absolute cell and write back its aged value. -/
def Plateau.ageLoop (piece : Piece) (placement : Point) :
    List Point → Plateau → Option Plateau
  | [], plat => some plat
  | q :: rest, plat =>
    if piece.get q then
      let offset := q + placement
      match plat.get offset with
      | none => none
      | some c =>
        match plat.set offset c.age with
        | none => none
        | some plat2 => Plateau.ageLoop piece placement rest plat2
    else Plateau.ageLoop piece placement rest plat

/-- `Plateau::age_placement`: `take()` the last placement (leaving
`last_piece = none`) and age its footprint, if any. -/
def Plateau.age_placement (plat : Plateau) : Option Plateau :=
  match plat.last_piece with
  | none => some plat
  | some (placement, piece) =>
    Plateau.ageLoop piece placement piece.coords { plat with last_piece := none }

/-- `Plateau::place_piece`: age the previous placement, validate the new
one against the aged board, and on success stamp the new footprint with
`isNew = true` cells and record the placement as `last_piece`. -/
def Plateau.place_piece (plat : Plateau) (piece : Piece) (placement : Point)
    (player : Player) : Option (Plateau × Except String Unit) :=
  match plat.age_placement with
  | none => none
  | some aged =>
    let owner : Cell := player.cell
    match aged.is_valid_placement piece placement owner with
    | none => none
    | some (.error e) => some (aged, .error e)
    | some (.ok ()) =>
      match Plateau.stampLoop owner piece placement piece.coords aged with
      | none => none
      | some plat2 =>
        some ({ plat2 with last_piece := some (placement, piece) }, .ok ())

/-- Iterate `place_piece` over a list of moves, propagating a panic
(`none`).  The board after each move is the first component of
`place_piece`'s result whether the move validated or not. -/
def Plateau.runMoves (plat : Plateau) : List (Piece × Point × Player) → Option Plateau
  | [] => some plat
  | (piece, placement, player) :: rest =>
    match plat.place_piece piece placement player with
    | none => none
    | some (plat2, _) => plat2.runMoves rest

/-- The rectangle [0,width) × [0,height) that `is_in_bounds` tests. -/
def inRect (width height : Nat) (p : Point) : Prop :=
  0 ≤ p.x ∧ p.x < (width : Int) ∧ 0 ≤ p.y ∧ p.y < (height : Int)

instance (width height : Nat) (p : Point) : Decidable (inRect width height p) := by
  unfold inRect; infer_instance

/-- The board well-formedness invariant: the flat cell vector has exactly
width × height entries. -/
def Plateau.wf (plat : Plateau) : Prop :=
  plat.cells.length = plat.width * plat.height

/-- The absolute cells covered by a piece's set sub-cells at a placement
anchor, in the scan order of the loops. -/
def Piece.footprint (piece : Piece) (placement : Point) : List Point :=
  (piece.coords.filter fun q => piece.get q).map fun q => q + placement

/-- The footprint of the pending last placement (empty if none). -/
def Plateau.lastFootprint (plat : Plateau) : List Point :=
  match plat.last_piece with
  | none => []
  | some (placement, piece) => piece.footprint placement

/-- The pending last placement (if any) lies entirely on the board. -/
def Plateau.lastOk (plat : Plateau) : Prop :=
  ∀ q ∈ plat.lastFootprint, plat.is_in_bounds q = true

/-- The reachable-board invariant: well-formed cell vector and an
in-bounds pending placement. -/
def Plateau.inv (plat : Plateau) : Prop := plat.wf ∧ plat.lastOk

/-- Follows the spec's words (§4.1 `validate_placement`): walk the
absolute cells of the piece's set sub-cells in order with an overlap
counter; an out-of-bounds cell fails with the out-of-bounds error, an
opponent cell fails immediately with the enemy-overlap error, a second
own-cell occurrence fails with the excess-overlap error, and if the
counter is zero after the walk the no-overlap error is returned. -/
def specValidate (plat : Plateau) (owner : Cell) :
    List Point → Nat → Except String Unit
  | [], k => if k = 0 then .error "No Overlap" else .ok ()
  | q :: rest, k =>
    if plat.is_in_bounds q then
      match (plat.cellAt q).owner with
      | none => specValidate plat owner rest k
      | some pl =>
        if owner.owner = some pl then
          if 1 ≤ k then .error "Overlap greater than one"
          else specValidate plat owner rest (k + 1)
        else .error "Overlap on other player"
    else .error "Piece out of bounds"

/-- The `ERROR_THRESHOLD` constant of `engine/engine.rs`. -/
def ERROR_THRESHOLD : Nat := 6

/-- Outcome of the turn loop on a finite schedule of responses: how many
turns were attempted, how many responses were pushed to `history`, and
whether the loop terminated through the consecutive-error break. -/
structure RunResult where
  turns : Nat
  historyLen : Nat
  broke : Bool
deriving DecidableEq, Repr

/-- The turn loop of `Engine::run`, with each turn's response abstracted
to whether it carries an error (`true` = error).  Modelled from the spec
for the agent side: agents are external processes, so the schedule of
error/success responses is an arbitrary finite list.  Per the Rust
`match`: a success resets the counter and is pushed; an error with the
counter already at the threshold breaks out of the loop without being
pushed; any other error increments the counter and is pushed. -/
def runLoop : List Bool → Nat → RunResult
  | [], _ => ⟨0, 0, false⟩
  | isErr :: rest, errors =>
    if isErr then
      if ERROR_THRESHOLD ≤ errors then ⟨1, 0, true⟩
      else
        let r := runLoop rest (errors + 1)
        ⟨r.turns + 1, r.historyLen + 1, r.broke⟩
    else
      let r := runLoop rest 0
      ⟨r.turns + 1, r.historyLen + 1, r.broke⟩

/-- The engine state that `Engine::next_move` reads and writes: the
monotone move counter and the (fixed) number of players. -/
structure EngineSt where
  move_count : Nat
  player_count : Nat
deriving DecidableEq, Repr

/-- `Engine::next_move`'s scheduling effect: select the agent at index
`move_count % player_count` and increment `move_count` (the piece draw
and the agent interaction do not touch these fields). -/
def EngineSt.next_move (e : EngineSt) : Nat × EngineSt :=
  (e.move_count % e.player_count, { e with move_count := e.move_count + 1 })

/-- The engine scheduling state after `n` calls to `next_move`, starting
from the freshly built engine (`move_count = 0`). -/
def engineIter (pc : Nat) : Nat → EngineSt
  | 0 => ⟨0, pc⟩
  | n + 1 => ((engineIter pc n).next_move).2

/-! ### Basic lemmas about bounds, indices, reads and writes -/

theorem in_bounds_iff {plat : Plateau} {p : Point} :
    plat.is_in_bounds p = true ↔ inRect plat.width plat.height p := by
  simp [Plateau.is_in_bounds, inRect, Bool.and_eq_true, decide_eq_true_eq, and_assoc]

theorem in_bounds_congr {plat plat' : Plateau} (hw : plat'.width = plat.width)
    (hh : plat'.height = plat.height) (p : Point) :
    plat'.is_in_bounds p = plat.is_in_bounds p := by
  simp [Plateau.is_in_bounds, hw, hh]

theorem idx_spec {plat : Plateau} {p : Point} (hb : plat.is_in_bounds p = true) :
    0 ≤ plat.idx p ∧ plat.idx p < ((plat.width * plat.height : Nat) : Int) := by
  obtain ⟨hx0, hxw, hy0, hyh⟩ := in_bounds_iff.mp hb
  unfold Plateau.idx
  constructor
  · have h1 : 0 ≤ (plat.width : Int) * p.y := mul_nonneg (by positivity) hy0
    linarith
  · have h1 : (plat.width : Int) * p.y + p.x < (plat.width : Int) * (p.y + 1) := by
      have h2 : (plat.width : Int) * (p.y + 1) = plat.width * p.y + plat.width := by ring
      linarith
    have h2 : (plat.width : Int) * (p.y + 1) ≤ (plat.width : Int) * (plat.height : Int) :=
      mul_le_mul_of_nonneg_left (by omega) (by positivity)
    have h3 : ((plat.width * plat.height : Nat) : Int) = (plat.width : Int) * (plat.height : Int) := by
      push_cast; ring
    linarith

theorem idx_toNat_lt {plat : Plateau} {p : Point} (hwf : plat.wf)
    (hb : plat.is_in_bounds p = true) : (plat.idx p).toNat < plat.cells.length := by
  obtain ⟨h0, hlt⟩ := idx_spec hb
  rw [hwf]
  generalize plat.width * plat.height = m at hlt
  omega

theorem idx_inj {plat : Plateau} {p q : Point} (hp : plat.is_in_bounds p = true)
    (hq : plat.is_in_bounds q = true) (h : plat.idx p = plat.idx q) : p = q := by
  obtain ⟨hx0, hxw, hy0, hyh⟩ := in_bounds_iff.mp hp
  obtain ⟨hx0', hxw', hy0', hyh'⟩ := in_bounds_iff.mp hq
  have hw : (plat.width : Int) ≠ 0 := by omega
  unfold Plateau.idx at h
  have hmod : ∀ x y : Int, 0 ≤ x → x < (plat.width : Int) →
      ((plat.width : Int) * y + x) % (plat.width : Int) = x := by
    intro x y hx hxlt
    rw [add_comm, Int.add_mul_emod_self_left, Int.emod_eq_of_lt hx hxlt]
  have hdiv : ∀ x y : Int, 0 ≤ x → x < (plat.width : Int) →
      ((plat.width : Int) * y + x) / (plat.width : Int) = y := by
    intro x y hx hxlt
    rw [add_comm, Int.add_mul_ediv_left _ _ hw, Int.ediv_eq_zero_of_lt hx hxlt, zero_add]
  have hx : p.x = q.x := by
    have e1 := hmod p.x p.y hx0 hxw
    have e2 := hmod q.x q.y hx0' hxw'
    rw [h] at e1; rw [e2] at e1; exact e1.symm
  have hy : p.y = q.y := by
    have e1 := hdiv p.x p.y hx0 hxw
    have e2 := hdiv q.x q.y hx0' hxw'
    rw [h] at e1; rw [e2] at e1; exact e1.symm
  cases p; cases q; simp_all

theorem get_eq_some {plat : Plateau} {p : Point} (hwf : plat.wf)
    (hb : plat.is_in_bounds p = true) : plat.get p = some (plat.cellAt p) := by
  have h1 := (idx_spec hb).1
  have h2 := idx_toNat_lt hwf hb
  unfold Plateau.cellAt Plateau.get
  rw [if_pos h1, List.get?_eq_getElem?, List.getElem?_eq_getElem h2]
  rfl

@[simp]
theorem cellAt_update_last (plat : Plateau) (lp : Option (Point × Piece)) (q : Point) :
    Plateau.cellAt { plat with last_piece := lp } q = plat.cellAt q := rfl

@[simp]
theorem in_bounds_update_last (plat : Plateau) (lp : Option (Point × Piece)) (q : Point) :
    Plateau.is_in_bounds { plat with last_piece := lp } q = plat.is_in_bounds q := rfl

@[simp]
theorem wf_update_last (plat : Plateau) (lp : Option (Point × Piece)) :
    Plateau.wf { plat with last_piece := lp } ↔ plat.wf := Iff.rfl

theorem set_spec {plat : Plateau} {p : Point} (c : Cell) (hwf : plat.wf)
    (hb : plat.is_in_bounds p = true) :
    ∃ plat', plat.set p c = some plat' ∧
      plat'.width = plat.width ∧ plat'.height = plat.height ∧
      plat'.player1_start = plat.player1_start ∧
      plat'.player2_start = plat.player2_start ∧
      plat'.last_piece = plat.last_piece ∧ plat'.wf ∧
      ∀ q, plat.is_in_bounds q = true →
        plat'.cellAt q = if q = p then c else plat.cellAt q := by
  have h1 := (idx_spec hb).1
  have h2 := idx_toNat_lt hwf hb
  refine ⟨{ plat with cells := plat.cells.set (plat.idx p).toNat c }, ?_, rfl, rfl, rfl, rfl, rfl, ?_, ?_⟩
  · unfold Plateau.set
    rw [if_pos ⟨h1, h2⟩]
  · unfold Plateau.wf at hwf ⊢
    simp [List.length_set, hwf]
  · intro q hq
    have hq1 := (idx_spec hq).1
    have hidxq : Plateau.idx { plat with cells := plat.cells.set (plat.idx p).toNat c } q
        = plat.idx q := rfl
    unfold Plateau.cellAt Plateau.get
    rw [hidxq]
    simp only [if_pos hq1, if_pos h1, List.get?_eq_getElem?]
    rw [List.getElem?_set]
    by_cases hqp : q = p
    · subst hqp
      simp [h2]
    · have hne : (plat.idx p).toNat ≠ (plat.idx q).toNat := by
        intro hEq
        have hiq : plat.idx q = plat.idx p := by omega
        exact hqp (idx_inj hq hb hiq)
      rw [if_neg hne, if_neg hqp]

/-! ### Characterizations of the stamping, aging and validation loops -/

/-- The absolute cells of the set sub-cells among a list of piece-local
coordinates (the loops' remaining work). -/
def absFoot (piece : Piece) (placement : Point) (L : List Point) : List Point :=
  (L.filter fun q => piece.get q).map fun q => q + placement

theorem footprint_eq_absFoot (piece : Piece) (placement : Point) :
    piece.footprint placement = absFoot piece placement piece.coords := rfl

@[simp]
theorem age_age (c : Cell) : c.age.age = c.age := by cases c <;> rfl

@[simp]
theorem age_owner (c : Cell) : c.age.owner = c.owner := by cases c <;> rfl

theorem stampLoop_spec (owner : Cell) (piece : Piece) (placement : Point)
    (L : List Point) :
    ∀ plat : Plateau, plat.wf →
      (∀ r ∈ absFoot piece placement L, plat.is_in_bounds r = true) →
      ∃ plat', Plateau.stampLoop owner piece placement L plat = some plat' ∧
        plat'.width = plat.width ∧ plat'.height = plat.height ∧
        plat'.player1_start = plat.player1_start ∧
        plat'.player2_start = plat.player2_start ∧
        plat'.last_piece = plat.last_piece ∧ plat'.wf ∧
        ∀ r, plat.is_in_bounds r = true →
          plat'.cellAt r =
            if r ∈ absFoot piece placement L then owner else plat.cellAt r := by
  induction L with
  | nil =>
    intro plat hwf _
    exact ⟨plat, rfl, rfl, rfl, rfl, rfl, rfl, hwf, by intro r _; simp [absFoot]⟩
  | cons q L ih =>
    intro plat hwf hin
    by_cases hget : piece.get q = true
    · have habs : absFoot piece placement (q :: L)
          = (q + placement) :: absFoot piece placement L := by
        simp [absFoot, hget]
      have hqin : plat.is_in_bounds (q + placement) = true := by
        apply hin; rw [habs]; exact List.mem_cons_self _ _
      obtain ⟨plat1, hset, hw1, hh1, hp11, hp21, hlp1, hwf1, hcell1⟩ :=
        set_spec owner hwf hqin
      have hib1 : ∀ r, plat1.is_in_bounds r = plat.is_in_bounds r :=
        in_bounds_congr hw1 hh1
      obtain ⟨plat', hloop, hw', hh', hp1', hp2', hlp', hwf', hcell'⟩ :=
        ih plat1 hwf1 (by
          intro r hr
          rw [hib1]; apply hin; rw [habs]; exact List.mem_cons_of_mem _ hr)
      refine ⟨plat', ?_, by rw [hw', hw1], by rw [hh', hh1], by rw [hp1', hp11],
        by rw [hp2', hp21], by rw [hlp', hlp1], hwf', ?_⟩
      · simp only [Plateau.stampLoop, hget, if_true, hset]
        exact hloop
      · intro r hr
        rw [habs]
        have h1 := hcell' r (by rw [hib1]; exact hr)
        have h2 := hcell1 r hr
        by_cases hrL : r ∈ absFoot piece placement L
        · rw [if_pos (List.mem_cons_of_mem _ hrL)]
          rw [if_pos hrL] at h1
          exact h1
        · rw [if_neg hrL] at h1
          by_cases hrq : r = q + placement
          · rw [if_pos (by rw [hrq]; exact List.mem_cons_self _ _)]
            rw [h1, h2, if_pos hrq]
          · rw [if_neg (by simp [hrq, hrL])]
            rw [h1, h2, if_neg hrq]
    · have hgf : piece.get q = false := by simpa using hget
      have habs : absFoot piece placement (q :: L) = absFoot piece placement L := by
        simp [absFoot, hgf]
      obtain ⟨plat', hloop, hrest⟩ := ih plat hwf (by rw [← habs]; exact hin)
      refine ⟨plat', ?_, by rw [habs]; exact hrest⟩
      simp only [Plateau.stampLoop, hgf, if_false, Bool.false_eq_true]
      exact hloop

theorem ageLoop_spec (piece : Piece) (placement : Point) (L : List Point) :
    ∀ plat : Plateau, plat.wf →
      (∀ r ∈ absFoot piece placement L, plat.is_in_bounds r = true) →
      ∃ plat', Plateau.ageLoop piece placement L plat = some plat' ∧
        plat'.width = plat.width ∧ plat'.height = plat.height ∧
        plat'.player1_start = plat.player1_start ∧
        plat'.player2_start = plat.player2_start ∧
        plat'.last_piece = plat.last_piece ∧ plat'.wf ∧
        ∀ r, plat.is_in_bounds r = true →
          plat'.cellAt r =
            if r ∈ absFoot piece placement L then (plat.cellAt r).age
            else plat.cellAt r := by
  induction L with
  | nil =>
    intro plat hwf _
    exact ⟨plat, rfl, rfl, rfl, rfl, rfl, rfl, hwf, by intro r _; simp [absFoot]⟩
  | cons q L ih =>
    intro plat hwf hin
    by_cases hget : piece.get q = true
    · have habs : absFoot piece placement (q :: L)
          = (q + placement) :: absFoot piece placement L := by
        simp [absFoot, hget]
      have hqin : plat.is_in_bounds (q + placement) = true := by
        apply hin; rw [habs]; exact List.mem_cons_self _ _
      have hread := get_eq_some hwf hqin
      obtain ⟨plat1, hset, hw1, hh1, hp11, hp21, hlp1, hwf1, hcell1⟩ :=
        set_spec (plat.cellAt (q + placement)).age hwf hqin
      have hib1 : ∀ r, plat1.is_in_bounds r = plat.is_in_bounds r :=
        in_bounds_congr hw1 hh1
      obtain ⟨plat', hloop, hw', hh', hp1', hp2', hlp', hwf', hcell'⟩ :=
        ih plat1 hwf1 (by
          intro r hr
          rw [hib1]; apply hin; rw [habs]; exact List.mem_cons_of_mem _ hr)
      refine ⟨plat', ?_, by rw [hw', hw1], by rw [hh', hh1], by rw [hp1', hp11],
        by rw [hp2', hp21], by rw [hlp', hlp1], hwf', ?_⟩
      · simp only [Plateau.ageLoop, hget, if_true, hread, hset]
        exact hloop
      · intro r hr
        rw [habs]
        have h1 := hcell' r (by rw [hib1]; exact hr)
        have h2 := hcell1 r hr
        by_cases hrL : r ∈ absFoot piece placement L
        · rw [if_pos (List.mem_cons_of_mem _ hrL)]
          rw [if_pos hrL] at h1
          rw [h1, h2]
          by_cases hrq : r = q + placement
          · rw [if_pos hrq, hrq, age_age]
          · rw [if_neg hrq]
        · rw [if_neg hrL] at h1
          by_cases hrq : r = q + placement
          · rw [if_pos (by rw [hrq]; exact List.mem_cons_self _ _)]
            rw [h1, h2, if_pos hrq, hrq]
          · rw [if_neg (by simp [hrq, hrL])]
            rw [h1, h2, if_neg hrq]
    · have hgf : piece.get q = false := by simpa using hget
      have habs : absFoot piece placement (q :: L) = absFoot piece placement L := by
        simp [absFoot, hgf]
      obtain ⟨plat', hloop, hrest⟩ := ih plat hwf (by rw [← habs]; exact hin)
      refine ⟨plat', ?_, by rw [habs]; exact hrest⟩
      simp only [Plateau.ageLoop, hgf, if_false, Bool.false_eq_true]
      exact hloop

theorem validScan_eq_spec (piece : Piece) (placement : Point) (owner : Cell)
    (L : List Point) :
    ∀ (plat : Plateau) (b : Bool), plat.wf →
      plat.validScan piece placement owner L b
        = some (specValidate plat owner (absFoot piece placement L)
            (if b then 1 else 0)) := by
  induction L with
  | nil =>
    intro plat b hwf
    cases b <;> simp [Plateau.validScan, specValidate, absFoot]
  | cons q L ih =>
    intro plat b hwf
    by_cases hget : piece.get q = true
    · have habs : absFoot piece placement (q :: L)
          = (q + placement) :: absFoot piece placement L := by
        simp [absFoot, hget]
      rw [habs]
      by_cases hbnd : plat.is_in_bounds (q + placement) = true
      · have hread := get_eq_some hwf hbnd
        cases hc : plat.cellAt (q + placement) with
        | Empty =>
          rw [hc] at hread
          simp only [Plateau.validScan, hget, if_true, hbnd, hread, specValidate,
            hc, Cell.owner]
          exact ih plat b hwf
        | Player1 nb =>
          rw [hc] at hread
          cases owner with
          | Player1 ob =>
            cases b
            · simp only [Plateau.validScan, hget, if_true, hbnd, hread,
                specValidate, hc, Cell.owner, if_pos rfl]
              rw [ih plat true hwf]
              norm_num
            · simp only [Plateau.validScan, hget, if_true, hbnd, hread,
                specValidate, hc, Cell.owner, if_pos rfl]
              norm_num
          | Player2 ob =>
            simp [Plateau.validScan, hget, hbnd, hread, specValidate, hc, Cell.owner]
          | Empty =>
            simp [Plateau.validScan, hget, hbnd, hread, specValidate, hc, Cell.owner]
        | Player2 nb =>
          rw [hc] at hread
          cases owner with
          | Player2 ob =>
            cases b
            · simp only [Plateau.validScan, hget, if_true, hbnd, hread,
                specValidate, hc, Cell.owner, if_pos rfl]
              rw [ih plat true hwf]
              norm_num
            · simp only [Plateau.validScan, hget, if_true, hbnd, hread,
                specValidate, hc, Cell.owner, if_pos rfl]
              norm_num
          | Player1 ob =>
            simp [Plateau.validScan, hget, hbnd, hread, specValidate, hc, Cell.owner]
          | Empty =>
            simp [Plateau.validScan, hget, hbnd, hread, specValidate, hc, Cell.owner]
      · simp [Plateau.validScan, hget, hbnd, specValidate]
    · have hgf : piece.get q = false := by simpa using hget
      have habs : absFoot piece placement (q :: L) = absFoot piece placement L := by
        simp [absFoot, hgf]
      rw [habs]
      simp only [Plateau.validScan, hgf, if_false, Bool.false_eq_true]
      exact ih plat b hwf

theorem Player.eq_or_other (pl po : Player) : pl = po ∨ pl = po.other := by
  cases pl <;> cases po <;> simp [Player.other]

theorem specValidate_ok (plat : Plateau) (owner : Cell) (po : Player)
    (howner : owner.owner = some po) (L : List Point) :
    ∀ k : Nat,
      (∀ q ∈ L, plat.is_in_bounds q = true) →
      (∀ q ∈ L, (plat.cellAt q).owner ≠ some po.other) →
      k + L.countP (fun q => decide ((plat.cellAt q).owner = some po)) = 1 →
      specValidate plat owner L k = .ok () := by
  induction L with
  | nil =>
    intro k _ _ hcount
    simp only [List.countP_nil, Nat.add_zero] at hcount
    simp [specValidate, hcount]
  | cons r L ih =>
    intro k hin hen hcount
    have hb : plat.is_in_bounds r = true := hin r (List.mem_cons_self _ _)
    simp only [specValidate, if_pos hb]
    rw [List.countP_cons] at hcount
    cases hc : (plat.cellAt r).owner with
    | none =>
      have hpred : (decide ((plat.cellAt r).owner = some po)) = false := by
        simp [hc]
      rw [hpred] at hcount
      simp only [if_false, Bool.false_eq_true, Nat.add_zero] at hcount
      exact ih k (fun q hq => hin q (List.mem_cons_of_mem _ hq))
        (fun q hq => hen q (List.mem_cons_of_mem _ hq)) hcount
    | some pl =>
      rcases Player.eq_or_other pl po with rfl | rfl
      · have hpred : (decide ((plat.cellAt r).owner = some pl)) = true := by
          simp [hc]
        rw [hpred] at hcount
        simp only [if_true] at hcount
        have hk : k = 0 := by omega
        subst hk
        have hcond : owner.owner = some pl := howner
        change (if owner.owner = some pl then
            if 1 ≤ 0 then Except.error "Overlap greater than one"
            else specValidate plat owner L (0 + 1)
          else Except.error "Overlap on other player") = Except.ok ()
        rw [if_pos hcond, if_neg (by omega : ¬ 1 ≤ 0)]
        exact ih (0 + 1) (fun q hq => hin q (List.mem_cons_of_mem _ hq))
          (fun q hq => hen q (List.mem_cons_of_mem _ hq)) (by omega)
      · exact absurd hc (hen r (List.mem_cons_self _ _))

theorem specValidate_ok_inBounds (plat : Plateau) (owner : Cell) (L : List Point) :
    ∀ k, specValidate plat owner L k = .ok () →
      ∀ q ∈ L, plat.is_in_bounds q = true := by
  induction L with
  | nil => intro k _ q hq; cases hq
  | cons r L ih =>
    intro k h q hq
    simp only [specValidate] at h
    by_cases hb : plat.is_in_bounds r = true
    · rw [if_pos hb] at h
      rcases List.mem_cons.mp hq with rfl | hqL
      · exact hb
      · cases hc : (plat.cellAt r).owner with
        | none => rw [hc] at h; exact ih _ h q hqL
        | some pl =>
          rw [hc] at h
          have h' : (if owner.owner = some pl then
              if 1 ≤ k then Except.error "Overlap greater than one"
              else specValidate plat owner L (k + 1)
            else (Except.error "Overlap on other player" : Except String Unit))
              = Except.ok () := h
          by_cases ho : owner.owner = some pl
          · rw [if_pos ho] at h'
            by_cases hk : 1 ≤ k
            · rw [if_pos hk] at h'; cases h'
            · rw [if_neg hk] at h'; exact ih _ h' q hqL
          · rw [if_neg ho] at h'; cases h'
    · rw [if_neg hb] at h; cases h

theorem specValidate_ok_owner (plat : Plateau) (owner : Cell) (L : List Point) :
    ∀ k, specValidate plat owner L k = .ok () →
      ∀ q ∈ L, ∀ pl, (plat.cellAt q).owner = some pl → owner.owner = some pl := by
  induction L with
  | nil => intro k _ q hq; cases hq
  | cons r L ih =>
    intro k h q hq pl hpl
    simp only [specValidate] at h
    by_cases hb : plat.is_in_bounds r = true
    · rw [if_pos hb] at h
      cases hc : (plat.cellAt r).owner with
      | none =>
        rw [hc] at h
        rcases List.mem_cons.mp hq with rfl | hqL
        · rw [hc] at hpl; cases hpl
        · exact ih _ h q hqL pl hpl
      | some pl' =>
        rw [hc] at h
        have h' : (if owner.owner = some pl' then
            if 1 ≤ k then Except.error "Overlap greater than one"
            else specValidate plat owner L (k + 1)
          else (Except.error "Overlap on other player" : Except String Unit))
            = Except.ok () := h
        by_cases ho : owner.owner = some pl'
        · rw [if_pos ho] at h'
          by_cases hk : 1 ≤ k
          · rw [if_pos hk] at h'; cases h'
          · rw [if_neg hk] at h'
            rcases List.mem_cons.mp hq with rfl | hqL
            · rw [hc] at hpl
              cases hpl
              exact ho
            · exact ih _ h' q hqL pl hpl
        · rw [if_neg ho] at h'; cases h'
    · rw [if_neg hb] at h; cases h

theorem player_cell_owner (player : Player) : player.cell.owner = some player := by
  cases player <;> rfl

theorem age_placement_spec (plat : Plateau) (hinv : plat.inv) :
    ∃ aged, plat.age_placement = some aged ∧
      aged.width = plat.width ∧ aged.height = plat.height ∧
      aged.player1_start = plat.player1_start ∧
      aged.player2_start = plat.player2_start ∧
      aged.last_piece = none ∧ aged.wf ∧
      ∀ r, plat.is_in_bounds r = true →
        aged.cellAt r =
          if r ∈ plat.lastFootprint then (plat.cellAt r).age
          else plat.cellAt r := by
  obtain ⟨hwf, hlast⟩ := hinv
  cases hlp : plat.last_piece with
  | none =>
    refine ⟨plat, ?_, rfl, rfl, rfl, rfl, hlp, hwf, ?_⟩
    · simp [Plateau.age_placement, hlp]
    · intro r _
      have hfoot : plat.lastFootprint = [] := by simp [Plateau.lastFootprint, hlp]
      simp [hfoot]
  | some pp =>
    obtain ⟨placement, piece⟩ := pp
    have hfoot : plat.lastFootprint = piece.footprint placement := by
      simp [Plateau.lastFootprint, hlp]
    obtain ⟨aged, hloop, hw, hh, hp1, hp2, hlpp, hwf', hcell⟩ :=
      ageLoop_spec piece placement piece.coords { plat with last_piece := none }
        hwf (by
          intro r hr
          rw [in_bounds_update_last]
          apply hlast
          rw [hfoot, footprint_eq_absFoot]
          exact hr)
    refine ⟨aged, ?_, hw, hh, hp1, hp2, hlpp, hwf', ?_⟩
    · simp only [Plateau.age_placement, hlp]
      exact hloop
    · intro r hr
      have h1 := hcell r (by rw [in_bounds_update_last]; exact hr)
      rw [hfoot, footprint_eq_absFoot]
      simpa using h1

theorem place_piece_spec (plat : Plateau) (piece : Piece) (placement : Point)
    (player : Player) (hinv : plat.inv) :
    ∃ aged res, plat.age_placement = some aged ∧
      plat.place_piece piece placement player = some res ∧
      res.1.inv ∧
      res.1.width = plat.width ∧ res.1.height = plat.height ∧
      res.1.player1_start = plat.player1_start ∧
      res.1.player2_start = plat.player2_start ∧
      (∀ e, res.2 = Except.error e → res.1 = aged) ∧
      (res.2 = Except.ok () →
        res.1.last_piece = some (placement, piece) ∧
        (∀ q ∈ piece.footprint placement, plat.is_in_bounds q = true) ∧
        (∀ q ∈ piece.footprint placement, ∀ pl,
          (aged.cellAt q).owner = some pl → pl = player) ∧
        (∀ r, plat.is_in_bounds r = true →
          res.1.cellAt r =
            if r ∈ piece.footprint placement then player.cell
            else aged.cellAt r)) := by
  obtain ⟨aged, hage, hw, hh, hp1, hp2, hlpn, hwfA, _⟩ := age_placement_spec plat hinv
  have hibA : ∀ r, aged.is_in_bounds r = plat.is_in_bounds r := in_bounds_congr hw hh
  have hvs : aged.is_valid_placement piece placement player.cell
      = some (specValidate aged player.cell (piece.footprint placement) 0) := by
    unfold Plateau.is_valid_placement
    rw [validScan_eq_spec piece placement player.cell piece.coords aged false hwfA]
    rw [footprint_eq_absFoot]
    norm_num
  have hagedInv : aged.inv := by
    refine ⟨hwfA, ?_⟩
    intro q hq
    rw [Plateau.lastFootprint, hlpn] at hq
    cases hq
  cases hres : specValidate aged player.cell (piece.footprint placement) 0 with
  | error e =>
    refine ⟨aged, (aged, .error e), hage, ?_, hagedInv, hw, hh, hp1, hp2, ?_, ?_⟩
    · simp only [Plateau.place_piece, hage]
      rw [hvs, hres]
    · intro e' _; rfl
    · intro hok; cases hok
  | ok u =>
    cases u
    have hfin : ∀ q ∈ piece.footprint placement, plat.is_in_bounds q = true := by
      intro q hq
      rw [← hibA]
      exact specValidate_ok_inBounds aged player.cell _ 0 hres q hq
    obtain ⟨plat2, hloop, hw2, hh2, hp12, hp22, hlp2, hwf2, hcell2⟩ :=
      stampLoop_spec player.cell piece placement piece.coords aged hwfA (by
        intro r hr
        rw [hibA]
        apply hfin
        rw [footprint_eq_absFoot]
        exact hr)
    refine ⟨aged, ({ plat2 with last_piece := some (placement, piece) }, .ok ()),
      hage, ?_, ?_, by rw [hw2, hw], by rw [hh2, hh], by rw [hp12, hp1],
      by rw [hp22, hp2], ?_, ?_⟩
    · simp only [Plateau.place_piece, hage]
      rw [hvs, hres]
      simp only [hloop]
    · constructor
      · rw [wf_update_last]; exact hwf2
      · intro q hq
        simp only [Plateau.lastFootprint] at hq
        rw [in_bounds_update_last, in_bounds_congr hw2 hh2, hibA]
        exact hfin q hq
    · intro e he; cases he
    · intro _
      refine ⟨rfl, hfin, ?_, ?_⟩
      · intro q hq pl hpl
        have := specValidate_ok_owner aged player.cell _ 0 hres q hq pl hpl
        rw [player_cell_owner] at this
        exact (Option.some.injEq _ _ ▸ this).symm
      · intro r hr
        rw [cellAt_update_last]
        have h2 := hcell2 r (by rw [hibA]; exact hr)
        rw [h2, footprint_eq_absFoot]

/-! ### Construction and reachable-board lemmas -/

theorem new_ok (w h : Nat) (p1 p2 : Point)
    (h1 : inRect w h p1) (h2 : inRect w h p2) :
    ∃ plat, Plateau.new w h p1 p2 = some (.ok plat) ∧
      plat.width = w ∧ plat.height = h ∧
      plat.player1_start = p1 ∧ plat.player2_start = p2 ∧
      plat.last_piece = none ∧ plat.inv ∧
      plat.cellAt p2 = Cell.Player2 false ∧
      (p1 ≠ p2 → plat.cellAt p1 = Cell.Player1 false) ∧
      (∀ q, inRect w h q → q ≠ p1 → q ≠ p2 → plat.cellAt q = Cell.Empty) := by
  have hwf0 : Plateau.wf ⟨p1, p2, w, h, List.replicate (w * h) Cell.Empty, none⟩ := by
    simp [Plateau.wf]
  have hb1 : Plateau.is_in_bounds ⟨p1, p2, w, h, List.replicate (w * h) Cell.Empty, none⟩ p1
      = true := in_bounds_iff.mpr h1
  have hb2' : Plateau.is_in_bounds ⟨p1, p2, w, h, List.replicate (w * h) Cell.Empty, none⟩ p2
      = true := in_bounds_iff.mpr h2
  have hcell0 : ∀ q,
      Plateau.is_in_bounds ⟨p1, p2, w, h, List.replicate (w * h) Cell.Empty, none⟩ q = true →
      Plateau.cellAt ⟨p1, p2, w, h, List.replicate (w * h) Cell.Empty, none⟩ q
        = Cell.Empty := by
    intro q hq
    have h0 := (idx_spec hq).1
    have hlt := idx_toNat_lt hwf0 hq
    simp only [List.length_replicate] at hlt
    simp [Plateau.cellAt, Plateau.get, if_pos h0, List.get?_eq_getElem?,
      List.getElem?_replicate, hlt]
  obtain ⟨plat1, hset1, hw1, hh1, hp11, hp21, hlp1, hwf1, hcell1⟩ :=
    set_spec (Cell.Player1 false) hwf0 hb1
  have hib1 : ∀ r, plat1.is_in_bounds r
      = Plateau.is_in_bounds ⟨p1, p2, w, h, List.replicate (w * h) Cell.Empty, none⟩ r :=
    in_bounds_congr hw1 hh1
  obtain ⟨plat2, hset2, hw2, hh2, hp12, hp22, hlp2, hwf2, hcell2⟩ :=
    set_spec (Cell.Player2 false) hwf1 (by rw [hib1]; exact hb2')
  have hib2 : ∀ r, plat2.is_in_bounds r = plat1.is_in_bounds r :=
    in_bounds_congr hw2 hh2
  have hnew : Plateau.new w h p1 p2 = some (.ok plat2) := by
    simp only [Plateau.new, hb1, if_true, hset1]
    rw [hib1 p2]
    simp only [hb2', if_true, hset2]
  refine ⟨plat2, hnew, by rw [hw2, hw1], by rw [hh2, hh1], by rw [hp12, hp11],
    by rw [hp22, hp21], by rw [hlp2, hlp1], ⟨hwf2, ?_⟩, ?_, ?_, ?_⟩
  · intro q hq
    rw [Plateau.lastFootprint, hlp2, hlp1] at hq
    cases hq
  · rw [hcell2 p2 (by rw [hib1]; exact hb2'), if_pos rfl]
  · intro hne
    rw [hcell2 p1 (by rw [hib1]; exact hb1), if_neg hne,
      hcell1 p1 hb1, if_pos rfl]
  · intro q hq hq1 hq2
    have hbq : Plateau.is_in_bounds ⟨p1, p2, w, h, List.replicate (w * h) Cell.Empty, none⟩ q
        = true := in_bounds_iff.mpr hq
    rw [hcell2 q (by rw [hib1]; exact hbq), if_neg hq2, hcell1 q hbq, if_neg hq1,
      hcell0 q hbq]

theorem new_err1 (w h : Nat) (p1 p2 : Point) (h1 : ¬ inRect w h p1) :
    Plateau.new w h p1 p2 = some (.error "Player1 out of bounds") := by
  have hb1 : Plateau.is_in_bounds ⟨p1, p2, w, h, List.replicate (w * h) Cell.Empty, none⟩ p1
      ≠ true := fun hc => h1 (in_bounds_iff.mp hc)
  simp only [Plateau.new, if_neg hb1]

theorem new_err2 (w h : Nat) (p1 p2 : Point) (h1 : inRect w h p1)
    (h2 : ¬ inRect w h p2) :
    Plateau.new w h p1 p2 = some (.error "Player2 out of bounds") := by
  have hwf0 : Plateau.wf ⟨p1, p2, w, h, List.replicate (w * h) Cell.Empty, none⟩ := by
    simp [Plateau.wf]
  have hb1 : Plateau.is_in_bounds ⟨p1, p2, w, h, List.replicate (w * h) Cell.Empty, none⟩ p1
      = true := in_bounds_iff.mpr h1
  obtain ⟨plat1, hset1, hw1, hh1, _, _, _, _, _⟩ := set_spec (Cell.Player1 false) hwf0 hb1
  have hb2 : plat1.is_in_bounds p2 ≠ true := by
    rw [in_bounds_congr hw1 hh1]
    exact fun hc => h2 (in_bounds_iff.mp hc)
  simp only [Plateau.new, hb1, if_true, hset1, if_neg hb2]

theorem new_inv {w h : Nat} {p1 p2 : Point} {plat : Plateau}
    (hnew : Plateau.new w h p1 p2 = some (.ok plat)) :
    plat.inv ∧ plat.width = w ∧ plat.height = h := by
  by_cases h1 : inRect w h p1
  · by_cases h2 : inRect w h p2
    · obtain ⟨plat', hnew', hw, hh, _, _, _, hinv, _⟩ := new_ok w h p1 p2 h1 h2
      rw [hnew'] at hnew
      cases hnew
      exact ⟨hinv, hw, hh⟩
    · rw [new_err2 w h p1 p2 h1 h2] at hnew
      cases hnew
  · rw [new_err1 w h p1 p2 h1] at hnew
    cases hnew

theorem place_piece_inv (plat : Plateau) (piece : Piece) (placement : Point)
    (player : Player) (hinv : plat.inv) :
    ∃ res, plat.place_piece piece placement player = some res ∧ res.1.inv ∧
      res.1.width = plat.width ∧ res.1.height = plat.height ∧
      ∀ q, plat.is_in_bounds q = true → ∀ pl,
        (plat.cellAt q).owner = some pl → (res.1.cellAt q).owner = some pl := by
  obtain ⟨aged, res, hage, hpp, hinvR, hw, hh, _, _, herr, hok⟩ :=
    place_piece_spec plat piece placement player hinv
  obtain ⟨aged', hage', _, _, _, _, _, _, hcellA⟩ := age_placement_spec plat hinv
  rw [hage] at hage'
  cases hage'
  have hagedOwn : ∀ q, plat.is_in_bounds q = true → ∀ pl,
      (plat.cellAt q).owner = some pl → (aged.cellAt q).owner = some pl := by
    intro q hq pl hpl
    rw [hcellA q hq]
    by_cases hmem : q ∈ plat.lastFootprint
    · rw [if_pos hmem, age_owner]; exact hpl
    · rw [if_neg hmem]; exact hpl
  refine ⟨res, hpp, hinvR, hw, hh, ?_⟩
  intro q hq pl hpl
  cases hr : res.2 with
  | error e =>
    rw [herr e hr]
    exact hagedOwn q hq pl hpl
  | ok u =>
    cases u
    obtain ⟨_, _, hownF, hcellR⟩ := hok hr
    rw [hcellR q hq]
    by_cases hmem : q ∈ piece.footprint placement
    · rw [if_pos hmem, player_cell_owner]
      have hpl' := hagedOwn q hq pl hpl
      rw [hownF q hmem pl hpl']
    · rw [if_neg hmem]
      exact hagedOwn q hq pl hpl

theorem runMoves_spec (ms : List (Piece × Point × Player)) :
    ∀ plat : Plateau, plat.inv →
      ∃ plat', plat.runMoves ms = some plat' ∧ plat'.inv ∧
        plat'.width = plat.width ∧ plat'.height = plat.height ∧
        ∀ q, plat.is_in_bounds q = true → ∀ pl,
          (plat.cellAt q).owner = some pl → (plat'.cellAt q).owner = some pl := by
  induction ms with
  | nil =>
    intro plat hinv
    exact ⟨plat, rfl, hinv, rfl, rfl, fun q _ pl hpl => hpl⟩
  | cons m ms ih =>
    obtain ⟨piece, placement, player⟩ := m
    intro plat hinv
    obtain ⟨res, hpp, hinv1, hw1, hh1, hmono1⟩ :=
      place_piece_inv plat piece placement player hinv
    obtain ⟨res1, res2⟩ := res
    obtain ⟨plat', hrun, hinv', hw', hh', hmono'⟩ := ih res1 hinv1
    refine ⟨plat', ?_, hinv', by rw [hw', hw1], by rw [hh', hh1], ?_⟩
    · simp only [Plateau.runMoves, hpp]
      exact hrun
    · intro q hq pl hpl
      apply hmono'
      · rw [in_bounds_congr hw1 hh1]
        exact hq
      · exact hmono1 q hq pl hpl

/-! ### Engine turn-loop lemmas -/

theorem runLoop_cons_err_break (rest : List Bool) (c : Nat)
    (hc : ERROR_THRESHOLD ≤ c) :
    runLoop (true :: rest) c = ⟨1, 0, true⟩ := by
  simp [runLoop, hc]

theorem runLoop_cons_err (rest : List Bool) (c : Nat)
    (hc : ¬ ERROR_THRESHOLD ≤ c) :
    runLoop (true :: rest) c
      = ⟨(runLoop rest (c + 1)).turns + 1,
         (runLoop rest (c + 1)).historyLen + 1,
         (runLoop rest (c + 1)).broke⟩ := by
  simp [runLoop, hc]

theorem runLoop_cons_ok (rest : List Bool) (c : Nat) :
    runLoop (false :: rest) c
      = ⟨(runLoop rest 0).turns + 1,
         (runLoop rest 0).historyLen + 1,
         (runLoop rest 0).broke⟩ := by
  simp [runLoop]

theorem runLoop_errors (k : Nat) :
    ∀ c : Nat, c ≤ ERROR_THRESHOLD → ERROR_THRESHOLD + 1 - c ≤ k →
      runLoop (List.replicate k true) c
        = ⟨ERROR_THRESHOLD + 1 - c, ERROR_THRESHOLD - c, true⟩ := by
  induction k with
  | zero =>
    intro c hc hk
    exfalso
    omega
  | succ k ih =>
    intro c hc hk
    rw [List.replicate_succ]
    by_cases hcc : ERROR_THRESHOLD ≤ c
    · have hceq : c = ERROR_THRESHOLD := le_antisymm hc hcc
      subst hceq
      rw [runLoop_cons_err_break _ _ hcc]
      simp only [RunResult.mk.injEq]
      exact ⟨by omega, by omega, trivial⟩
    · rw [runLoop_cons_err _ _ hcc, ih (c + 1) (by omega) (by omega)]
      simp only [RunResult.mk.injEq]
      exact ⟨by omega, by omega, trivial⟩

theorem runLoop_clean_start (pre : List Bool) (hpre : ∀ b ∈ pre, b = false)
    (rest : List Bool) :
    runLoop (pre ++ rest) 0
      = ⟨pre.length + (runLoop rest 0).turns,
         pre.length + (runLoop rest 0).historyLen,
         (runLoop rest 0).broke⟩ := by
  induction pre with
  | nil => simp
  | cons b pre ih =>
    have hb : b = false := hpre b (List.mem_cons_self _ _)
    subst hb
    rw [List.cons_append, runLoop_cons_ok,
      ih (fun b hb => hpre b (List.mem_cons_of_mem _ hb))]
    simp only [RunResult.mk.injEq, List.length_cons]
    exact ⟨by omega, by omega, trivial⟩

theorem engineIter_state (pc : Nat) :
    ∀ n, (engineIter pc n).move_count = n ∧ (engineIter pc n).player_count = pc := by
  intro n
  induction n with
  | zero => exact ⟨rfl, rfl⟩
  | succ n ih =>
    obtain ⟨h1, h2⟩ := ih
    simp [engineIter, EngineSt.next_move, h1, h2]

/-! ### Concrete fixtures (the boards and pieces of the Rust unit tests) -/

instance {ε α : Type} [DecidableEq ε] [DecidableEq α] :
    DecidableEq (Except ε α) := fun a b =>
  match a, b with
  | .ok x, .ok y =>
    if h : x = y then isTrue (by rw [h])
    else isFalse (by intro hc; cases hc; exact h rfl)
  | .error e, .error f =>
    if h : e = f then isTrue (by rw [h])
    else isFalse (by intro hc; cases hc; exact h rfl)
  | .ok _, .error _ => isFalse (by intro hc; cases hc)
  | .error _, .ok _ => isFalse (by intro hc; cases hc)

instance (plat : Plateau) : Decidable plat.wf := by
  unfold Plateau.wf; infer_instance

instance (plat : Plateau) : Decidable plat.lastOk := by
  unfold Plateau.lastOk; infer_instance

instance (plat : Plateau) : Decidable plat.inv := by
  unfold Plateau.inv; infer_instance

/-- The horizontal test piece `[false, true, true, false]`, width 4, height 1. -/
def horizPiece : Piece := ⟨4, 1, [false, true, true, false]⟩

/-- The 3×3 test board with Player1 start (1,1) and Player2 start (2,2). -/
def testPlat : Plateau :=
  ⟨⟨1, 1⟩, ⟨2, 2⟩, 3, 3,
   [Cell.Empty, Cell.Empty, Cell.Empty,
    Cell.Empty, Cell.Player1 false, Cell.Empty,
    Cell.Empty, Cell.Empty, Cell.Player2 false], none⟩

/-- `testPlat` after committing `horizPiece` at (0,1) for Player1. -/
def placedPlat : Plateau :=
  ⟨⟨1, 1⟩, ⟨2, 2⟩, 3, 3,
   [Cell.Empty, Cell.Empty, Cell.Empty,
    Cell.Empty, Cell.Player1 true, Cell.Player1 true,
    Cell.Empty, Cell.Empty, Cell.Player2 false], some (⟨0, 1⟩, horizPiece)⟩

/-! ### Claim theorems -/

/-- C1: for every board, piece, placement point and placing player such
that every set sub-cell of the piece maps to an in-bounds absolute cell,
exactly one of those cells is owned by the placing player, and none is
owned by the opponent, `is_valid_placement` returns success. -/
theorem validate_single_overlap_succeeds (plat : Plateau) (piece : Piece)
    (placement : Point) (owner : Cell) (po : Player)
    (hwf : plat.wf) (howner : owner.owner = some po)
    (hbounds : ∀ q ∈ piece.footprint placement, plat.is_in_bounds q = true)
    (hnoenemy : ∀ q ∈ piece.footprint placement,
      (plat.cellAt q).owner ≠ some po.other)
    (hone : (piece.footprint placement).countP
        (fun q => decide ((plat.cellAt q).owner = some po)) = 1) :
    plat.is_valid_placement piece placement owner = some (.ok ()) := by
  unfold Plateau.is_valid_placement
  rw [validScan_eq_spec piece placement owner piece.coords plat false hwf,
    ← footprint_eq_absFoot]
  norm_num
  exact specValidate_ok plat owner po howner (piece.footprint placement) 0
    hbounds hnoenemy (by omega)

theorem validate_single_overlap_succeeds_witness :
    testPlat.wf ∧ (Cell.Player1 false).owner = some Player.Player1 ∧
    (∀ q ∈ horizPiece.footprint ⟨0, 1⟩, testPlat.is_in_bounds q = true) ∧
    (∀ q ∈ horizPiece.footprint ⟨0, 1⟩,
      (testPlat.cellAt q).owner ≠ some Player.Player1.other) ∧
    (horizPiece.footprint ⟨0, 1⟩).countP
      (fun q => decide ((testPlat.cellAt q).owner = some Player.Player1)) = 1 ∧
    testPlat.is_valid_placement horizPiece ⟨0, 1⟩ (Cell.Player1 false)
      = some (.ok ()) :=
  ⟨by decide, by decide, by decide, by decide, by decide,
   validate_single_overlap_succeeds testPlat horizPiece ⟨0, 1⟩
     (Cell.Player1 false) Player.Player1 (by decide) (by decide) (by decide)
     (by decide) (by decide)⟩

/-- C2: `is_valid_placement` discriminates failures in scan order exactly
as `specValidate` (written from the spec's words) does: a set sub-cell
mapping out of bounds fails with the out-of-bounds error, an opponent cell
fails with the enemy-overlap error immediately, a second own-cell overlap
fails with the excess-overlap error, and a completed scan with a zero
overlap counter fails with the no-overlap error. -/
theorem validate_error_discrimination (plat : Plateau) (piece : Piece)
    (placement : Point) (owner : Cell) (hwf : plat.wf) :
    plat.is_valid_placement piece placement owner
      = some (specValidate plat owner (piece.footprint placement) 0) := by
  unfold Plateau.is_valid_placement
  rw [validScan_eq_spec piece placement owner piece.coords plat false hwf,
    ← footprint_eq_absFoot]
  norm_num

theorem validate_error_discrimination_witness :
    testPlat.wf ∧
    testPlat.is_valid_placement horizPiece ⟨0, 2⟩ (Cell.Player1 false)
      = some (specValidate testPlat (Cell.Player1 false)
          (horizPiece.footprint ⟨0, 2⟩) 0) :=
  ⟨by decide,
   validate_error_discrimination testPlat horizPiece ⟨0, 2⟩
     (Cell.Player1 false) (by decide)⟩

/-- C3: `place_piece` first ages the previous placement — clearing the
is-new flag on exactly the previously committed piece's footprint and no
other cell — then validates; on validation failure the board is exactly
the aged board (no new cell stamped), and on success every set sub-cell of
the new piece becomes the placing player's is-new cell and the
(point, piece) pair is stored as the new last placement. -/
theorem place_piece_ages_then_validates (plat : Plateau) (piece : Piece)
    (placement : Point) (player : Player) (hinv : plat.inv) :
    ∃ aged res, plat.age_placement = some aged ∧
      plat.place_piece piece placement player = some res ∧
      aged.last_piece = none ∧
      (∀ r, plat.is_in_bounds r = true →
        aged.cellAt r =
          if r ∈ plat.lastFootprint then (plat.cellAt r).age
          else plat.cellAt r) ∧
      (∀ e, res.2 = Except.error e → res.1 = aged) ∧
      (res.2 = Except.ok () →
        res.1.last_piece = some (placement, piece) ∧
        ∀ r, plat.is_in_bounds r = true →
          res.1.cellAt r =
            if r ∈ piece.footprint placement then player.cell
            else aged.cellAt r) := by
  obtain ⟨aged, hage, _, _, _, _, hlpn, _, hcellA⟩ := age_placement_spec plat hinv
  obtain ⟨aged', res, hage', hpp, _, _, _, _, _, herr, hok⟩ :=
    place_piece_spec plat piece placement player hinv
  rw [hage] at hage'
  cases hage'
  refine ⟨aged, res, hage, hpp, hlpn, hcellA, herr, ?_⟩
  intro hr
  obtain ⟨hlp, _, _, hcellR⟩ := hok hr
  exact ⟨hlp, hcellR⟩

theorem place_piece_ages_then_validates_witness :
    placedPlat.inv ∧
    (∃ aged res, placedPlat.age_placement = some aged ∧
      placedPlat.place_piece horizPiece ⟨0, 1⟩ Player.Player1 = some res ∧
      aged.last_piece = none ∧
      (∀ r, placedPlat.is_in_bounds r = true →
        aged.cellAt r =
          if r ∈ placedPlat.lastFootprint then (placedPlat.cellAt r).age
          else placedPlat.cellAt r) ∧
      (∀ e, res.2 = Except.error e → res.1 = aged) ∧
      (res.2 = Except.ok () →
        res.1.last_piece = some (⟨0, 1⟩, horizPiece) ∧
        ∀ r, placedPlat.is_in_bounds r = true →
          res.1.cellAt r =
            if r ∈ horizPiece.footprint ⟨0, 1⟩ then Player.Player1.cell
            else aged.cellAt r)) :=
  ⟨by decide,
   place_piece_ages_then_validates placedPlat horizPiece ⟨0, 1⟩
     Player.Player1 (by decide)⟩

/-- C4: over any sequence of `place_piece` operations (successful or
failed), cell ownership is monotone: a cell owned by a player is never
reset to `Empty` or handed to the other player; only its is-new flag can
change. -/
theorem ownership_monotone (plat plat' : Plateau)
    (ms : List (Piece × Point × Player)) (hinv : plat.inv)
    (hrun : plat.runMoves ms = some plat') :
    ∀ q, plat.is_in_bounds q = true → ∀ pl,
      (plat.cellAt q).owner = some pl → (plat'.cellAt q).owner = some pl := by
  obtain ⟨plat'', hrun', _, _, _, hmono⟩ := runMoves_spec ms plat hinv
  rw [hrun'] at hrun
  cases hrun
  exact hmono

theorem ownership_monotone_witness :
    testPlat.inv ∧
    testPlat.runMoves [(horizPiece, ⟨0, 1⟩, Player.Player1)] = some placedPlat ∧
    (∀ q, testPlat.is_in_bounds q = true → ∀ pl,
      (testPlat.cellAt q).owner = some pl →
      (placedPlat.cellAt q).owner = some pl) :=
  ⟨by decide, by decide,
   ownership_monotone testPlat placedPlat [(horizPiece, ⟨0, 1⟩, Player.Player1)]
     (by decide) (by decide)⟩

/-- C5 counterexample: with exactly `ERROR_THRESHOLD` (= 6) consecutive
error responses the loop does not break (it would keep running), refuting
"terminates as soon as the consecutive-error counter reaches 6"; and on
the run that does break (7 consecutive errors, all attempted) only 6
responses are pushed to history, refuting "history length equals the total
number of turns attempted". -/
theorem run_six_errors_counterexample :
    runLoop (List.replicate 6 true) 0 = ⟨6, 6, false⟩ ∧
    runLoop (List.replicate 7 true) 0 = ⟨7, 6, true⟩ := by
  exact ⟨by decide, by decide⟩

/-- C5 amended: the loop breaks on the first error response after the
consecutive-error counter has already reached the threshold, i.e. after
`ERROR_THRESHOLD + 1` (= 7) consecutive error turns since the last
success; every response except the final breaking one is appended to
history, so on a terminating run the history length is one less than the
number of turns attempted. -/
theorem run_terminates_after_threshold_plus_one (pre : List Bool) (k : Nat)
    (hpre : ∀ b ∈ pre, b = false) (hk : ERROR_THRESHOLD + 1 ≤ k) :
    runLoop (pre ++ List.replicate k true) 0
      = ⟨pre.length + (ERROR_THRESHOLD + 1), pre.length + ERROR_THRESHOLD,
         true⟩ := by
  rw [runLoop_clean_start pre hpre, runLoop_errors k 0 (by omega) (by omega)]
  simp only [RunResult.mk.injEq]
  exact ⟨by omega, by omega, trivial⟩

theorem run_terminates_after_threshold_plus_one_witness :
    (∀ b ∈ ([] : List Bool), b = false) ∧ ERROR_THRESHOLD + 1 ≤ 7 ∧
    runLoop ([] ++ List.replicate 7 true) 0
      = ⟨List.length ([] : List Bool) + (ERROR_THRESHOLD + 1),
         List.length ([] : List Bool) + ERROR_THRESHOLD, true⟩ :=
  ⟨by decide, by decide,
   run_terminates_after_threshold_plus_one [] 7 (by decide) (by decide)⟩

/-- C6: `next_move` assigns turn `i` (0-indexed) to the agent at index
`i mod player_count` and increments `move_count` by exactly one per call;
with two players this is strict alternation starting at index 0. -/
theorem next_move_round_robin (pc i : Nat) (hpc : 0 < pc) :
    ((engineIter pc i).next_move).1 = i % pc ∧
    (engineIter pc (i + 1)).move_count = (engineIter pc i).move_count + 1 ∧
    ((engineIter 2 (2 * i)).next_move).1 = 0 ∧
    ((engineIter 2 (2 * i + 1)).next_move).1 = 1 := by
  obtain ⟨hmc, hpcq⟩ := engineIter_state pc i
  refine ⟨?_, ?_, ?_, ?_⟩
  · simp [EngineSt.next_move, hmc, hpcq]
  · simp [engineIter, EngineSt.next_move]
  · obtain ⟨hmc2, hpc2⟩ := engineIter_state 2 (2 * i)
    simp [EngineSt.next_move, hmc2, hpc2, Nat.mul_mod_right]
  · obtain ⟨hmc2, hpc2⟩ := engineIter_state 2 (2 * i + 1)
    simp [EngineSt.next_move, hmc2, hpc2, Nat.add_mul_mod_self_left]
    omega

theorem next_move_round_robin_witness :
    0 < 2 ∧ ((engineIter 2 5).next_move).1 = 5 % 2 ∧
    (engineIter 2 (5 + 1)).move_count = (engineIter 2 5).move_count + 1 :=
  ⟨by decide, (next_move_round_robin 2 5 (by decide)).1,
   (next_move_round_robin 2 5 (by decide)).2.1⟩

/-- C7 (code bug witness): the `Cell` equality of the source is NOT a
terminating flat comparison on every pair.  Its `Player1`/`Player2` arms
are flat and ignore the is-new flag, but its wildcard arm (reached
whenever the left operand is `Empty`) re-invokes the same equality on
unchanged arguments, so it never produces a result at any recursion depth
— `Empty == Empty` overflows the stack. -/
theorem cell_eq_empty_diverges :
    (∀ fuel : Nat, ∀ other : Cell, cellEqFuel fuel Cell.Empty other = none) ∧
    (∀ fuel : Nat, ∀ b b' : Bool,
      cellEqFuel fuel (Cell.Player1 b) (Cell.Player1 b') = some true ∧
      cellEqFuel fuel (Cell.Player2 b) (Cell.Player2 b') = some true ∧
      cellEqFuel fuel (Cell.Player1 b) (Cell.Player2 b') = some false ∧
      cellEqFuel fuel (Cell.Player2 b) (Cell.Player1 b') = some false ∧
      cellEqFuel fuel (Cell.Player1 b) Cell.Empty = some false ∧
      cellEqFuel fuel (Cell.Player2 b) Cell.Empty = some false) := by
  constructor
  · intro fuel
    induction fuel with
    | zero => intro other; rfl
    | succ n ih => intro other; simpa [cellEqFuel] using ih other
  · intro fuel b b'
    cases fuel <;> exact ⟨rfl, rfl, rfl, rfl, rfl, rfl⟩

/-- C8: on the 3×3 board with Player1 start (1,1) and Player2 start (2,2),
the horizontal piece `[false,true,true,false]` (width 4, height 1) is
validated successfully for Player1 at anchor (0,1) and also at the
negative anchor (-1,1). -/
theorem concrete_horizontal_placements_valid :
    ∃ plat, Plateau.new 3 3 ⟨1, 1⟩ ⟨2, 2⟩ = some (.ok plat) ∧
      plat.is_valid_placement horizPiece ⟨0, 1⟩ (Cell.Player1 false)
        = some (.ok ()) ∧
      plat.is_valid_placement horizPiece ⟨-1, 1⟩ (Cell.Player1 false)
        = some (.ok ()) :=
  ⟨testPlat, by decide, by decide, by decide⟩

/-- C9 counterexample: construction with coincident start points (0,0) on
a 2×2 board succeeds, but the Player1 start cell then holds
`Player2(false)`, not `Player1(false)` — the claim that on success both
start cells are initialized to their own player's cell fails. -/
theorem new_coincident_starts_counterexample :
    ∃ plat, Plateau.new 2 2 ⟨0, 0⟩ ⟨0, 0⟩ = some (.ok plat) ∧
      plat.player1_start = ⟨0, 0⟩ ∧
      plat.cellAt ⟨0, 0⟩ = Cell.Player2 false ∧
      plat.cellAt ⟨0, 0⟩ ≠ Cell.Player1 false :=
  ⟨⟨⟨0, 0⟩, ⟨0, 0⟩, 2, 2,
    [Cell.Player2 false, Cell.Empty, Cell.Empty, Cell.Empty], none⟩,
   by decide, by decide, by decide, by decide⟩

/-- C9 amended: `Plateau::new` fails with an out-of-bounds error iff either
start point lies outside [0,width)×[0,height); on success the dimensions
and start fields are as given, the Player2 start cell is `Player2(false)`,
and the Player1 start cell is `Player1(false)` whenever the two start
points are distinct (with coincident starts Player2's stamp, applied
second, overwrites Player1's); the default 50×50 construction with starts
(5,5) and (44,44) succeeds. -/
theorem new_out_of_bounds_iff :
    (∀ (w h : Nat) (p1 p2 : Point),
      ((∃ e, Plateau.new w h p1 p2 = some (.error e))
        ↔ (¬ inRect w h p1 ∨ ¬ inRect w h p2)) ∧
      (∀ plat, Plateau.new w h p1 p2 = some (.ok plat) →
        plat.width = w ∧ plat.height = h ∧
        plat.player1_start = p1 ∧ plat.player2_start = p2 ∧
        plat.cellAt p2 = Cell.Player2 false ∧
        (p1 ≠ p2 → plat.cellAt p1 = Cell.Player1 false))) ∧
    (∃ plat, Plateau.new 50 50 ⟨5, 5⟩ ⟨44, 44⟩ = some (.ok plat)) := by
  constructor
  · intro w h p1 p2
    constructor
    · constructor
      · rintro ⟨e, he⟩
        by_contra hcon
        push_neg at hcon
        obtain ⟨h1, h2⟩ := hcon
        obtain ⟨plat, hnew, _⟩ := new_ok w h p1 p2 h1 h2
        rw [hnew] at he
        cases he
      · intro hcon
        by_cases h1 : inRect w h p1
        · rcases hcon with hc1 | hc2
          · exact absurd h1 hc1
          · exact ⟨_, new_err2 w h p1 p2 h1 hc2⟩
        · exact ⟨_, new_err1 w h p1 p2 h1⟩
    · intro plat hok
      by_cases h1 : inRect w h p1
      · by_cases h2 : inRect w h p2
        · obtain ⟨plat', hnew, hw, hh, hs1, hs2, _, _, hc2, hc1, _⟩ :=
            new_ok w h p1 p2 h1 h2
          rw [hnew] at hok
          cases hok
          exact ⟨hw, hh, hs1, hs2, hc2, hc1⟩
        · rw [new_err2 w h p1 p2 h1 h2] at hok
          cases hok
      · rw [new_err1 w h p1 p2 h1] at hok
        cases hok
  · obtain ⟨plat, hnew, _⟩ := new_ok 50 50 ⟨5, 5⟩ ⟨44, 44⟩ (by decide) (by decide)
    exact ⟨plat, hnew⟩

theorem new_out_of_bounds_iff_witness :
    Plateau.new 3 3 ⟨1, 1⟩ ⟨2, 2⟩ = some (.ok testPlat) ∧
    (testPlat.width = 3 ∧ testPlat.height = 3 ∧
      testPlat.player1_start = ⟨1, 1⟩ ∧ testPlat.player2_start = ⟨2, 2⟩ ∧
      testPlat.cellAt ⟨2, 2⟩ = Cell.Player2 false ∧
      ((⟨1, 1⟩ : Point) ≠ ⟨2, 2⟩ →
        testPlat.cellAt ⟨1, 1⟩ = Cell.Player1 false)) :=
  ⟨by decide,
   (new_out_of_bounds_iff.1 3 3 ⟨1, 1⟩ ⟨2, 2⟩).2 testPlat (by decide)⟩

/-- C10: starting from any successfully constructed board, any sequence of
`place_piece` operations completes without reaching a panic (`none` in the
embedding, covering the `panic!("Cells incorrectly initialized")` branch
of `Plateau::get` and the indexed writes), and on every reachable board
`is_valid_placement` itself always returns a result rather than
panicking. -/
theorem reachable_boards_never_panic (w h : Nat) (p1 p2 : Point)
    (plat0 : Plateau) (ms : List (Piece × Point × Player))
    (hnew : Plateau.new w h p1 p2 = some (.ok plat0)) :
    ∃ plat', plat0.runMoves ms = some plat' ∧
      ∀ piece placement owner, ∃ r,
        plat'.is_valid_placement piece placement owner = some r := by
  obtain ⟨hinv, _, _⟩ := new_inv hnew
  obtain ⟨plat', hrun, hinv', _, _, _⟩ := runMoves_spec ms plat0 hinv
  refine ⟨plat', hrun, ?_⟩
  intro piece placement owner
  refine ⟨specValidate plat' owner (piece.footprint placement) 0, ?_⟩
  unfold Plateau.is_valid_placement
  rw [validScan_eq_spec piece placement owner piece.coords plat' false hinv'.1,
    ← footprint_eq_absFoot]
  norm_num

theorem reachable_boards_never_panic_witness :
    Plateau.new 3 3 ⟨1, 1⟩ ⟨2, 2⟩ = some (.ok testPlat) ∧
    (∃ plat', testPlat.runMoves [(horizPiece, ⟨0, 1⟩, Player.Player1)]
        = some plat' ∧
      ∀ piece placement owner, ∃ r,
        plat'.is_valid_placement piece placement owner = some r) :=
  ⟨by decide,
   reachable_boards_never_panic 3 3 ⟨1, 1⟩ ⟨2, 2⟩ testPlat
     [(horizPiece, ⟨0, 1⟩, Player.Player1)] (by decide)⟩

end Filler
